import Mathlib

/-! Shallow embedding of the sumtube YouTube client
(src/sumtube/youtube_client.py, class YouTubeClient), together with
proofs of the behavioural properties stated in the design document.

Modelling conventions:
* Python strings are represented as List Char.
* The file system is a map from path to optional contents; the
  transcript service and the metadata HTTP endpoint are function
  parameters, so every modelled operation is a total function of its
  inputs and of the state of the external world it consults.
* All sizes and indexes in the modelled code paths are non-negative
  and far from machine-integer bounds, so Nat is used.
-/

namespace Sumtube

/-! Regular expression model for extract_video_id.

The source applies re.search with a single alternation of sixteen
marker alternatives, each followed by the capture group of one or
more characters outside the class of hash, ampersand, question mark,
newline and slash.  The unescaped dot in some alternatives matches an
arbitrary character.  Since nothing follows the capture group, greedy
matching makes the capture the maximal run of non-delimiter
characters after the marker, and an alternative succeeds at a
position exactly when its marker matches there and at least one
non-delimiter character follows.  re.search returns the match whose
start position is leftmost; alternative order decides ties at one
position. -/

/-- Token of a marker alternative: a literal character, or the
unescaped dot which matches any character. -/
inductive MTok
  | lit (c : Char)
  | dot

/-- One token accepting one character. -/
def mtokMatch : MTok → Char → Bool
  | MTok.lit c, a => a == c
  | MTok.dot, _ => true

/-- Characters excluded from the capture group. -/
def isDelim (c : Char) : Bool :=
  c == '#' || c == '&' || c == '?' || c == '\n' || c == '/'

/-- Literal marker text as tokens. -/
def lits (s : String) : List MTok := s.data.map MTok.lit

def markV : List MTok := lits ("v=")

def markVideos : List MTok := lits ("/videos/")

def markYoutuBe : List MTok := lits ("youtu") ++ [MTok.dot] ++ lits ("be/")

def markSlashV : List MTok := lits ("/v/")

def markSlashE : List MTok := lits ("/e/")

def markWatch : List MTok := lits ("/watch?v=")

def markAmpV : List MTok := lits ("&v=")

def markEmbed : List MTok := lits ("/embed/")

def markPctVideos : List MTok := lits ("%2Fvideos%2F")

def markEmbedPct : List MTok := lits ("embed%2F")

def markYoutuBePct : List MTok := lits ("youtu") ++ [MTok.dot] ++ lits ("be%2F")

def markPctV : List MTok := lits ("%2Fv%2F")

def markPctE : List MTok := lits ("%2Fe%2F")

def markComEmbed : List MTok := lits ("youtube") ++ [MTok.dot] ++ lits ("com/embed/")

def markComV : List MTok := lits ("youtube") ++ [MTok.dot] ++ lits ("com/v/")

def markComWatch : List MTok := lits ("youtube") ++ [MTok.dot] ++ lits ("com/watch?v=")

/-- The marker alternatives in source order. -/
def alts : List (List MTok) :=
  [markV, markVideos, markYoutuBe, markSlashV, markSlashE, markWatch,
   markAmpV, markEmbed, markPctVideos, markEmbedPct, markYoutuBePct,
   markPctV, markPctE, markComEmbed, markComV, markComWatch]

/-- Does the marker match at the head of the given suffix of the input. -/
def markerAccepts : List MTok → List Char → Bool
  | [], _ => true
  | _ :: _, [] => false
  | t :: ts, c :: cs => mtokMatch t c && markerAccepts ts cs

/-- Greedy capture: the maximal run of non-delimiter characters. -/
def captureOf (l : List Char) : List Char := l.takeWhile (fun c => !isDelim c)

/-- Attempt one alternative at the current position: the marker must
match and the capture group must be non-empty. -/
def tryAltAt (s : List Char) (a : List MTok) : Option (List Char) :=
  if markerAccepts a s then
    match captureOf (s.drop a.length) with
    | [] => none
    | c :: cs => some (c :: cs)
  else none

/-- Try a list of alternatives in order at the current position. -/
def tryAltsList : List (List MTok) → List Char → Option (List Char)
  | [], _ => none
  | a :: rest, s =>
    match tryAltAt s a with
    | some g => some g
    | none => tryAltsList rest s

/-- Try all alternatives of the pattern, in source order. -/
def tryAltsAt (s : List Char) : Option (List Char) := tryAltsList alts s

/-- Scan start positions left to right, as re.search does. -/
def searchAux : List Char → Option (List Char)
  | [] => none
  | c :: cs =>
    match tryAltsAt (c :: cs) with
    | some g => some g
    | none => searchAux cs

/-- re.search over the whole pattern, returning the capture group. -/
def reSearch (s : List Char) : Option (List Char) := searchAux s

inductive UrlError
  | invalidURL

/-- extract_video_id from the source: search the pattern, fail when no
match is found, otherwise return the captured group. -/
def extract_video_id (youtube_url : List Char) : Except UrlError (List Char) :=
  match reSearch youtube_url with
  | some g => Except.ok g
  | none => Except.error UrlError.invalidURL

/-- Does some marker alternative match at some position of the string. -/
def hasMarker : List Char → Bool
  | [] => false
  | c :: cs => alts.any (fun a => markerAccepts a (c :: cs)) || hasMarker cs

/-! Transcript model for get_transcript. -/

/-- Whitespace in the sense of str.strip. -/
def wsChar (c : Char) : Bool := c.isWhitespace

/-- Remove trailing whitespace. -/
def stripEnd (l : List Char) : List Char := (l.reverse.dropWhile wsChar).reverse

/-- Python str.strip: remove whitespace at both ends. -/
def pyStrip (l : List Char) : List Char := (stripEnd l).dropWhile wsChar

/-- One timed caption unit of the raw transcript data. -/
structure TranscriptSegment where
  text : List Char
  start : Int
  duration : Int

/-- Failure modes of the external transcript service, all caught by
the bare except clause of the source. -/
inductive TranscriptError
  | noTranscript
  | languageUnavailable
  | networkError
  | rateLimited

/-- The display text of the caught exception. -/
def TranscriptError.message : TranscriptError → List Char
  | TranscriptError.noTranscript => ("no transcript available").data
  | TranscriptError.languageUnavailable => ("requested language unavailable").data
  | TranscriptError.networkError => ("network failure").data
  | TranscriptError.rateLimited => ("too many requests").data

/-- Failure raised by opening or writing the optional output file. -/
inductive WriteError
  | permissionDenied
  | missingDirectory

/-- The display text of the caught write failure. -/
def WriteError.message : WriteError → List Char
  | WriteError.permissionDenied => ("permission denied").data
  | WriteError.missingDirectory => ("no such file or directory").data

/-- Observable outcome of get_transcript: the returned value together
with the side effects, namely printed messages and completed file
writes. -/
structure FetchOutcome where
  result : Option (List Char)
  messages : List (List Char)
  fileWrites : List ((List Char) × (List Char))

/-- The accumulation loop of the source: append each segment text
followed by one space. -/
def joinSegTexts (texts : List (List Char)) : List Char :=
  (texts.map (fun t => t ++ [' '])).flatten

def DEFAULT_LANG : List Char := ("en").data

/-- get_transcript from the source.  The external transcript service
is the parameter svc, a function of video id and language; the
writability of the file system is the parameter fsw, giving for each
path the error raised by opening or writing it, if any.  The try
block of the source spans the fetch, the join and the optional write,
and the bare except clause converts any error raised inside it, a
service failure as well as a write failure, into a printed message
and an absent return value.  A failed write contributes no completed
write; partial content left behind by a failure is below the
granularity of the model. -/
def get_transcript
    (svc : List Char → List Char → Except TranscriptError (List TranscriptSegment))
    (fsw : List Char → Option WriteError)
    (video_id : List Char) (output_file : Option (List Char))
    (language : List Char) : FetchOutcome :=
  match svc video_id language with
  | Except.error e => ⟨none, [("Error: ").data ++ e.message], []⟩
  | Except.ok transcript_data =>
    let transcript_text := pyStrip (joinSegTexts (transcript_data.map (fun s => s.text)))
    match output_file with
    | none => ⟨some transcript_text, [], []⟩
    | some f =>
      match fsw f with
      | some e => ⟨none, [("Error: ").data ++ e.message], []⟩
      | none => ⟨some transcript_text, [], [(f, transcript_text)]⟩

/-- Specification-side normalization, written from the words of the
design document: join the segment text values with a single space
separator, then trim leading and trailing whitespace. -/
def specJoin (texts : List (List Char)) : List Char :=
  pyStrip ((List.intersperse ([' ']) texts).flatten)

/-! Metadata model for fetch_video_snippet. -/

structure Snippet where
  title : Option (List Char)
  thumbnails : List ((List Char) × (List Char))

structure VideoItem where
  snippet : Snippet

/-- An HTTP response from the metadata endpoint: the final status code
and the parsed items array of the JSON body. -/
structure HttpResponse where
  status : Nat
  items : List VideoItem

/-- The request parameters that the source serializes into the query
string of the GET. -/
structure VideoRequest where
  part : List Char
  id : List Char
  key : List Char

inductive SnippetError
  | httpError (status : Nat)
  | notFound

/-- raise_for_status of the requests library raises exactly for the
status codes 400 to 599. -/
def raisesForStatus (status : Nat) : Bool :=
  decide (400 ≤ status) && decide (status < 600)

/-- fetch_video_snippet from the source.  The external HTTP GET is the
parameter http. -/
def fetch_video_snippet (http : VideoRequest → HttpResponse)
    (api_key video_id : List Char) : Except SnippetError Snippet :=
  let resp := http ⟨("snippet").data, video_id, api_key⟩
  if raisesForStatus resp.status then
    Except.error (SnippetError.httpError resp.status)
  else
    match resp.items with
    | [] => Except.error SnippetError.notFound
    | item :: _ => Except.ok item.snippet

/-! Chunking model for chunk_text. -/

inductive ChunkError
  | invalidConfiguration
  | fileNotFound

/-- The while loop of chunk_text.  The loop advances the cursor by
chunk_size - overlap_size at every iteration, so fuel equal to the
text length bounds the number of iterations whenever the overlap
precondition holds. -/
def chunkLoop (text : List Char) (chunk_size overlap_size : Nat) :
    Nat → Nat → List (List Char)
  | 0, _ => []
  | fuel + 1, start =>
    if start < text.length then
      ((text.drop start).take chunk_size) ::
        chunkLoop text chunk_size overlap_size fuel (start + (chunk_size - overlap_size))
    else []

/-- The chunk sequence produced for a given text. -/
def chunksOf (text : List Char) (chunk_size overlap_size : Nat) : List (List Char) :=
  chunkLoop text chunk_size overlap_size text.length 0

/-- chunk_text from the source: validate the configuration first, then
read the file, then run the slicing loop. -/
def chunk_text (fs : String → Option (List Char)) (file_path : String)
    (chunk_size overlap_size : Nat) : Except ChunkError (List (List Char)) :=
  if overlap_size ≥ chunk_size then Except.error ChunkError.invalidConfiguration
  else
    match fs file_path with
    | none => Except.error ChunkError.fileNotFound
    | some text => Except.ok (chunksOf text chunk_size overlap_size)

/-! Concrete external worlds used to instantiate the theorems below. -/

def fsA : String → Option (List Char) := fun _ => some (("ab").data)

def fsB : String → Option (List Char) := fun _ => some (("xyzw").data)

def svcHW : List Char → List Char → Except TranscriptError (List TranscriptSegment) :=
  fun _ _ => Except.ok [⟨("Hello").data, 0, 0⟩, ⟨("world").data, 0, 0⟩]

def svcDown : List Char → List Char → Except TranscriptError (List TranscriptSegment) :=
  fun _ _ => Except.error TranscriptError.networkError

def fswOk : List Char → Option WriteError := fun _ => none

def fswFail : List Char → Option WriteError := fun _ => some WriteError.permissionDenied

def httpNoItems : VideoRequest → HttpResponse := fun _ => ⟨304, []⟩

def httpServerError : VideoRequest → HttpResponse := fun _ => ⟨500, []⟩

def sampleSnippet : Snippet := ⟨some (("Title").data), []⟩

def httpOneItem : VideoRequest → HttpResponse := fun _ => ⟨200, [⟨sampleSnippet⟩]⟩

/-! Helper lemmas about the chunking loop. -/

theorem chunkLoop_nil (text : List Char) (C O fuel start : Nat)
    (h : text.length ≤ start) : chunkLoop text C O fuel start = [] := by
  cases fuel with
  | zero => rfl
  | succ f => simp [chunkLoop, Nat.not_lt.mpr h]

theorem chunkLoop_length_iff (text : List Char) (C O : Nat) (hOC : O < C) :
    ∀ fuel start, text.length - start ≤ fuel →
      ∀ i, (i < (chunkLoop text C O fuel start).length ↔
        start + i * (C - O) < text.length) := by
  intro fuel
  induction fuel with
  | zero =>
    intro start hf i
    have hs : text.length ≤ start := by omega
    rw [chunkLoop_nil text C O 0 start hs]
    simp only [List.length_nil]
    constructor
    · intro hi; exact absurd hi (Nat.not_lt_zero i)
    · intro hi
      have hlt : start < text.length :=
        Nat.lt_of_le_of_lt (Nat.le_add_right start (i * (C - O))) hi
      omega
  | succ f ih =>
    intro start hf i
    by_cases hs : start < text.length
    · have hd : 0 < C - O := Nat.sub_pos_of_lt hOC
      simp only [chunkLoop, if_pos hs]
      cases i with
      | zero =>
        simp only [List.length_cons]
        constructor
        · intro _; simpa using hs
        · intro _; exact Nat.succ_pos _
      | succ j =>
        simp only [List.length_cons, Nat.succ_lt_succ_iff]
        have hf2 : text.length - (start + (C - O)) ≤ f := by omega
        have e : start + (C - O) + j * (C - O) = start + (j + 1) * (C - O) := by ring
        rw [ih (start + (C - O)) hf2 j, e]
    · rw [chunkLoop_nil text C O (f + 1) start (Nat.le_of_not_lt hs)]
      simp only [List.length_nil]
      constructor
      · intro hi; exact absurd hi (Nat.not_lt_zero i)
      · intro hi
        exact absurd (Nat.lt_of_le_of_lt (Nat.le_add_right start (i * (C - O))) hi) hs

theorem chunkLoop_getElem (text : List Char) (C O : Nat) (hOC : O < C) :
    ∀ fuel start i, text.length - start ≤ fuel → start + i * (C - O) < text.length →
      (chunkLoop text C O fuel start)[i]? =
        some ((text.drop (start + i * (C - O))).take C) := by
  intro fuel
  induction fuel with
  | zero =>
    intro start i hf hi
    exact absurd (Nat.lt_of_le_of_lt (Nat.le_add_right start (i * (C - O))) hi) (by omega)
  | succ f ih =>
    intro start i hf hi
    have hs : start < text.length :=
      Nat.lt_of_le_of_lt (Nat.le_add_right start (i * (C - O))) hi
    simp only [chunkLoop, if_pos hs]
    cases i with
    | zero => simp
    | succ j =>
      have hd : 0 < C - O := Nat.sub_pos_of_lt hOC
      have hf2 : text.length - (start + (C - O)) ≤ f := by omega
      have e : start + (C - O) + j * (C - O) = start + (j + 1) * (C - O) := by ring
      have hi2 : start + (C - O) + j * (C - O) < text.length := by rw [e]; exact hi
      rw [List.getElem?_cons_succ, ih (start + (C - O)) j hf2 hi2, e]

theorem chunkLoop_mem_le (text : List Char) (C O : Nat) :
    ∀ fuel start c, c ∈ chunkLoop text C O fuel start → c.length ≤ C := by
  intro fuel
  induction fuel with
  | zero => intro start c hc; simp [chunkLoop] at hc
  | succ f ih =>
    intro start c hc
    by_cases hs : start < text.length
    · simp only [chunkLoop, if_pos hs, List.mem_cons] at hc
      rcases hc with hc | hc
      · rw [hc]; exact List.length_take_le C _
      · exact ih _ c hc
    · rw [chunkLoop_nil text C O (f + 1) start (Nat.le_of_not_lt hs)] at hc
      simp at hc

theorem chunkLoop_flatten_drop (text : List Char) (C O : Nat) (hOC : O < C) :
    ∀ fuel start, text.length - start ≤ fuel →
      ((chunkLoop text C O fuel start).map (fun c => c.drop O)).flatten
        = text.drop (start + O) := by
  intro fuel
  induction fuel with
  | zero =>
    intro start hf
    have hs : text.length ≤ start := by omega
    rw [chunkLoop_nil text C O 0 start hs]
    simp [List.drop_eq_nil_of_le (le_trans hs (Nat.le_add_right start O))]
  | succ f ih =>
    intro start hf
    by_cases hs : start < text.length
    · have hd : 0 < C - O := Nat.sub_pos_of_lt hOC
      have hf2 : text.length - (start + (C - O)) ≤ f := by omega
      simp only [chunkLoop, if_pos hs, List.map_cons, List.flatten_cons]
      rw [ih (start + (C - O)) hf2]
      rw [List.drop_take, List.drop_drop]
      have e3 : (text.drop (start + O)).drop (C - O) = text.drop (start + (C - O) + O) := by
        rw [List.drop_drop]
        congr 1
        omega
      rw [← e3]
      exact List.take_append_drop (C - O) (text.drop (start + O))
    · have hs2 : text.length ≤ start := Nat.le_of_not_lt hs
      rw [chunkLoop_nil text C O (f + 1) start hs2]
      simp [List.drop_eq_nil_of_le (le_trans hs2 (Nat.le_add_right start O))]

theorem chunksOf_length_iff (text : List Char) (C O : Nat) (hOC : O < C) (i : Nat) :
    i < (chunksOf text C O).length ↔ i * (C - O) < text.length := by
  have h := chunkLoop_length_iff text C O hOC text.length 0 (by omega) i
  simpa using h

theorem chunksOf_getElem (text : List Char) (C O : Nat) (hOC : O < C) (i : Nat)
    (hi : i * (C - O) < text.length) :
    (chunksOf text C O)[i]? = some ((text.drop (i * (C - O))).take C) := by
  have h := chunkLoop_getElem text C O hOC text.length 0 i (by omega) (by simpa using hi)
  simpa using h

/-! Claims about the chunking component. -/

/-- C1: for every text, chunk size C greater than zero and overlap O
with O smaller than C, the chunk sequence lists, in left-to-right
order, the contiguous substrings of the text starting at positions
0, C - O, 2 * (C - O), and so on, each of length at most C;
consecutive start positions differ by exactly C - O; every character
position of the text is covered by some chunk; the empty text yields
the empty sequence; and this is exactly the sequence chunk_text
returns for a file holding the text. -/
theorem c1_chunking (text : List Char) (C O : Nat) (hOC : O < C) :
    (∀ i, i < (chunksOf text C O).length ↔ i * (C - O) < text.length)
    ∧ (∀ i, i * (C - O) < text.length →
        (chunksOf text C O)[i]? = some ((text.drop (i * (C - O))).take C))
    ∧ (∀ c, c ∈ chunksOf text C O → c.length ≤ C)
    ∧ (∀ p, p < text.length → ∃ i c, (chunksOf text C O)[i]? = some c
        ∧ i * (C - O) ≤ p ∧ p < i * (C - O) + c.length)
    ∧ chunksOf ([] : List Char) C O = []
    ∧ (∀ fs file_path, fs file_path = some text →
        chunk_text fs file_path C O = Except.ok (chunksOf text C O)) := by
  refine ⟨chunksOf_length_iff text C O hOC, chunksOf_getElem text C O hOC,
    fun c hc => chunkLoop_mem_le text C O text.length 0 c hc, ?_, rfl, ?_⟩
  · intro p hp
    have hd : 0 < C - O := Nat.sub_pos_of_lt hOC
    have hdC : C - O ≤ C := Nat.sub_le C O
    have h1 : (p / (C - O)) * (C - O) ≤ p := Nat.div_mul_le_self p (C - O)
    have h2 : p < (p / (C - O)) * (C - O) + (C - O) := by
      have h3 : p % (C - O) < C - O := Nat.mod_lt p hd
      calc p = (C - O) * (p / (C - O)) + p % (C - O) := (Nat.div_add_mod p (C - O)).symm
        _ < (C - O) * (p / (C - O)) + (C - O) := Nat.add_lt_add_left h3 _
        _ = (p / (C - O)) * (C - O) + (C - O) := by rw [Nat.mul_comm]
    have hlt : (p / (C - O)) * (C - O) < text.length := Nat.lt_of_le_of_lt h1 hp
    refine ⟨p / (C - O), (text.drop ((p / (C - O)) * (C - O))).take C,
      chunksOf_getElem text C O hOC _ hlt, h1, ?_⟩
    have hclen : ((text.drop ((p / (C - O)) * (C - O))).take C).length
        = min C (text.length - (p / (C - O)) * (C - O)) := by
      simp [List.length_take, List.length_drop]
    rw [hclen]
    set s := (p / (C - O)) * (C - O) with hs
    rcases min_choice C (text.length - s) with hmin | hmin <;> rw [hmin] <;> omega
  · intro fs file_path hfs
    unfold chunk_text
    rw [if_neg (Nat.not_le.mpr hOC), hfs]

/-- Witness for C1 at the concrete example of the design document:
chunking the six-character text with chunk size 4 and overlap 1. -/
theorem c1_chunking_witness :
    1 < 4 ∧ (chunksOf (("abcdef").data) 4 1)[1]? =
      some (((("abcdef").data).drop (1 * (4 - 1))).take 4) :=
  ⟨by decide, (c1_chunking (("abcdef").data) 4 1 (by decide)).2.1 1 (by decide)⟩

/-- C4: for every pair of sizes with overlap at least the chunk size,
chunk_text fails with the configuration error.  The statement holds
for every file system and path, including a path that is absent, so
the failure is decided before the input is read and no chunk sequence
is ever produced. -/
theorem c4_overlap_precondition (fs : String → Option (List Char)) (file_path : String)
    (chunk_size overlap_size : Nat) (h : overlap_size ≥ chunk_size) :
    chunk_text fs file_path chunk_size overlap_size
      = Except.error ChunkError.invalidConfiguration := by
  unfold chunk_text
  rw [if_pos h]

/-- Witness for C4: overlap 5 against chunk size 2. -/
theorem c4_overlap_precondition_witness :
    chunk_text fsA ("p") 2 5 = Except.error ChunkError.invalidConfiguration :=
  c4_overlap_precondition fsA ("p") 2 5 (by decide)

/-- Counterexample for C9: chunk_text is not a function of a text
argument alone.  It receives a file path and reads the file, so two
invocations with identical arguments (path, chunk size, overlap size)
return different chunk sequences under two file-system states that
store different contents at that path. -/
theorem c9_counterexample :
    chunk_text fsA ("p") 2 1 = Except.ok [("ab").data, ("b").data]
    ∧ chunk_text fsB ("p") 2 1
        = Except.ok [("xy").data, ("yz").data, ("zw").data, ("w").data]
    ∧ chunk_text fsA ("p") 2 1 ≠ chunk_text fsB ("p") 2 1 := by
  refine ⟨rfl, rfl, ?_⟩
  intro h
  have h2 : (Except.ok [("ab").data, ("b").data] : Except ChunkError (List (List Char)))
      = Except.ok [("xy").data, ("yz").data, ("zw").data, ("w").data] := h
  exact absurd (Except.ok.inj h2) (by decide)

/-- C9 amended: chunk_text reads its text from the file system, so its
result depends on the stored file content; for a fixed content it is
deterministic, a pure function of the content and the two sizes only. -/
theorem c9_content_determined (fs1 fs2 : String → Option (List Char))
    (p1 p2 : String) (chunk_size overlap_size : Nat) (h : fs1 p1 = fs2 p2) :
    chunk_text fs1 p1 chunk_size overlap_size
      = chunk_text fs2 p2 chunk_size overlap_size := by
  unfold chunk_text
  rw [h]

/-- Witness for the amended C9: the same content behind two distinct
paths yields the same chunk sequence. -/
theorem c9_content_determined_witness :
    chunk_text fsA ("p") 2 1 = chunk_text fsA ("q") 2 1 :=
  c9_content_determined fsA fsA ("p") ("q") 2 1 rfl

/-- C10: for a non-empty text and valid sizes, the first chunk starts
at position 0, the last chunk ends exactly at the end of the text, and
the text is reconstructed by concatenating the first chunk with every
later chunk minus its first O characters. -/
theorem c10_round_trip (text : List Char) (C O : Nat) (hOC : O < C) (hne : text ≠ []) :
    (chunksOf text C O).head? = some (text.take C)
    ∧ (∃ c, (chunksOf text C O)[(chunksOf text C O).length - 1]? = some c
        ∧ ((chunksOf text C O).length - 1) * (C - O) + c.length = text.length)
    ∧ (∀ c rest, chunksOf text C O = c :: rest →
        c ++ (rest.map (fun x => x.drop O)).flatten = text) := by
  have hlen : 0 < text.length := List.length_pos.mpr hne
  have hd : 0 < C - O := Nat.sub_pos_of_lt hOC
  obtain ⟨f, hf⟩ : ∃ f, text.length = f + 1 := ⟨text.length - 1, by omega⟩
  have hunfold : chunksOf text C O
      = (text.take C) :: chunkLoop text C O f (C - O) := by
    unfold chunksOf
    rw [hf]
    simp [chunkLoop, hlen]
  refine ⟨by rw [hunfold]; rfl, ?_, ?_⟩
  · have hn1 : 0 < (chunksOf text C O).length := by rw [hunfold]; exact Nat.succ_pos _
    have hlast_lt : ((chunksOf text C O).length - 1) * (C - O) < text.length :=
      (chunksOf_length_iff text C O hOC _).mp (by omega)
    refine ⟨_, chunksOf_getElem text C O hOC _ hlast_lt, ?_⟩
    have hge : text.length ≤ (chunksOf text C O).length * (C - O) := by
      by_contra hcon
      exact absurd ((chunksOf_length_iff text C O hOC _).mpr (Nat.lt_of_not_le hcon))
        (lt_irrefl _)
    have hclen : ((text.drop (((chunksOf text C O).length - 1) * (C - O))).take C).length
        = min C (text.length - ((chunksOf text C O).length - 1) * (C - O)) := by
      simp [List.length_take, List.length_drop]
    rw [hclen]
    have hmul : (chunksOf text C O).length * (C - O)
        = ((chunksOf text C O).length - 1) * (C - O) + (C - O) := by
      have hsucc : ((chunksOf text C O).length - 1) + 1 = (chunksOf text C O).length := by
        omega
      conv_lhs => rw [← hsucc]
      ring
    have hdC : C - O ≤ C := Nat.sub_le C O
    set s := ((chunksOf text C O).length - 1) * (C - O) with hs
    set t := (chunksOf text C O).length * (C - O) with ht
    rcases min_choice C (text.length - s) with hmin | hmin <;> rw [hmin] <;> omega
  · intro c rest hcr
    rw [hunfold] at hcr
    injection hcr with h1 h2
    subst h1
    subst h2
    rw [chunkLoop_flatten_drop text C O hOC f (C - O) (by omega)]
    have e : (C - O) + O = C := Nat.sub_add_cancel (Nat.le_of_lt hOC)
    rw [e, List.take_append_drop]

/-- Witness for C10 at the concrete six-character example. -/
theorem c10_round_trip_witness :
    ("abcd").data ++ (([("def").data]).map (fun x => x.drop 1)).flatten
      = ("abcdef").data :=
  (c10_round_trip (("abcdef").data) 4 1 (by decide) (by decide)).2.2
    (("abcd").data) [("def").data] rfl

/-! Helper lemmas about the transcript normalization. -/

theorem stripEnd_concat_space (l : List Char) : stripEnd (l ++ [' ']) = stripEnd l := by
  unfold stripEnd
  have h : (l ++ [' ']).reverse = ' ' :: l.reverse := by simp
  rw [h, List.dropWhile_cons]
  have hws : wsChar ' ' = true := rfl
  rw [hws]
  simp

theorem pyStrip_concat_space (l : List Char) : pyStrip (l ++ [' ']) = pyStrip l := by
  unfold pyStrip
  rw [stripEnd_concat_space]

theorem joinSegTexts_eq_intersperse (ts : List (List Char)) (h : ts ≠ []) :
    joinSegTexts ts = (List.intersperse ([' ']) ts).flatten ++ [' '] := by
  induction ts with
  | nil => exact absurd rfl h
  | cons a rest ih =>
    cases rest with
    | nil => simp [joinSegTexts, List.intersperse]
    | cons b r2 =>
      have hinter : List.intersperse ([' '] : List Char) (a :: b :: r2)
          = a :: ([' '] : List Char) :: List.intersperse ([' ']) (b :: r2) := rfl
      have ih2 := ih (by simp)
      simp only [joinSegTexts, List.map_cons, List.flatten_cons] at ih2 ⊢
      rw [hinter]
      simp only [List.flatten_cons]
      rw [ih2]
      simp [List.append_assoc]

theorem code_join_eq_spec (ts : List (List Char)) :
    pyStrip (joinSegTexts ts) = specJoin ts := by
  cases ts with
  | nil => rfl
  | cons a rest =>
    unfold specJoin
    rw [joinSegTexts_eq_intersperse (a :: rest) (by simp), pyStrip_concat_space]

/-! Claims about the transcript fetcher. -/

/-- C3: whenever the underlying transcript service call fails, for any
reason, get_transcript returns the absent value rather than an
exception; a human-readable message is the only other observable
effect, and nothing is written to the file system.  The statement
holds for every writability state of the file system, since the
failure precedes the optional write. -/
theorem c3_transcript_failure_absent
    (svc : List Char → List Char → Except TranscriptError (List TranscriptSegment))
    (fsw : List Char → Option WriteError)
    (video_id : List Char) (output_file : Option (List Char)) (language : List Char)
    (e : TranscriptError) (h : svc video_id language = Except.error e) :
    (get_transcript svc fsw video_id output_file language).result = none
    ∧ (get_transcript svc fsw video_id output_file language).messages
        = [("Error: ").data ++ e.message]
    ∧ (get_transcript svc fsw video_id output_file language).fileWrites = [] := by
  unfold get_transcript
  rw [h]
  exact ⟨rfl, rfl, rfl⟩

/-- Witness for C3: a service that always reports a network failure. -/
theorem c3_transcript_failure_absent_witness :
    (get_transcript svcDown fswFail (("vid").data) none DEFAULT_LANG).result = none
    ∧ (get_transcript svcDown fswFail (("vid").data) none DEFAULT_LANG).messages
        = [("Error: ").data ++ TranscriptError.networkError.message]
    ∧ (get_transcript svcDown fswFail (("vid").data) none DEFAULT_LANG).fileWrites = [] :=
  c3_transcript_failure_absent svcDown fswFail (("vid").data) none DEFAULT_LANG
    TranscriptError.networkError rfl

/-- Counterexample for C5: the optional output-file write sits inside
the try block of the source, so a write failure is caught by the same
bare except clause and the call returns the absent value, not the
joined string, even though the transcript fetch itself succeeded. -/
theorem c5_counterexample :
    svcHW (("vid").data) DEFAULT_LANG
      = Except.ok [⟨("Hello").data, 0, 0⟩, ⟨("world").data, 0, 0⟩]
    ∧ (get_transcript svcHW fswFail (("vid").data) (some (("out.txt").data))
        DEFAULT_LANG).result = none
    ∧ (get_transcript svcHW fswFail (("vid").data) (some (("out.txt").data))
        DEFAULT_LANG).result ≠ some (("Hello world").data) := by
  refine ⟨rfl, rfl, ?_⟩
  intro h
  have h2 : (none : Option (List Char)) = some (("Hello world").data) := h
  cases h2

/-- C5 amended: for every successful transcript fetch, whenever no
output file is requested or the requested output file is writable,
get_transcript returns the single string obtained by joining the
segment texts with a single space separator and trimming both ends,
discarding the timing fields; the accumulation loop of the source
(append each text plus one space, then strip) computes exactly that.
When the requested write raises, the same call returns the absent
value despite the successful fetch. -/
theorem c5_transcript_join
    (svc : List Char → List Char → Except TranscriptError (List TranscriptSegment))
    (fsw : List Char → Option WriteError)
    (video_id : List Char) (output_file : Option (List Char)) (language : List Char)
    (segs : List TranscriptSegment) (h : svc video_id language = Except.ok segs)
    (hw : output_file = none ∨ ∃ f, output_file = some f ∧ fsw f = none) :
    (get_transcript svc fsw video_id output_file language).result
      = some (specJoin (segs.map (fun s => s.text))) := by
  unfold get_transcript
  rw [h]
  rcases hw with hw | ⟨f, hf, hwf⟩
  · rw [hw]
    exact congrArg some (code_join_eq_spec _)
  · rw [hf]
    simp only [hwf]
    exact congrArg some (code_join_eq_spec _)

/-- Witness for the amended C5: the two-segment scenario of the design
document, with a writable output file, returns the literal string of
the two words separated by one space. -/
theorem c5_transcript_join_witness :
    (get_transcript svcHW fswOk (("vid").data) (some (("out.txt").data))
        DEFAULT_LANG).result = some (("Hello world").data) := by
  have h := c5_transcript_join svcHW fswOk (("vid").data) (some (("out.txt").data))
    DEFAULT_LANG [⟨("Hello").data, 0, 0⟩, ⟨("world").data, 0, 0⟩] rfl
    (Or.inr ⟨("out.txt").data, rfl, rfl⟩)
  rw [h]
  rfl

/-! Claims about the metadata fetcher. -/

/-- Counterexample for C7: the claim promises an HTTPError for every
non-2xx response, but the status check of the underlying library
raises only for the 4xx and 5xx ranges.  A 304 response with zero
items is non-2xx, yet fetch_video_snippet reports NotFound, not an
HTTPError carrying status 304. -/
theorem c7_counterexample :
    ¬ (200 ≤ 304 ∧ 304 < 300)
    ∧ raisesForStatus ((httpNoItems ⟨("snippet").data, ("vid").data, ("key").data⟩).status)
        = false
    ∧ fetch_video_snippet httpNoItems (("key").data) (("vid").data)
        = Except.error SnippetError.notFound
    ∧ fetch_video_snippet httpNoItems (("key").data) (("vid").data)
        ≠ Except.error (SnippetError.httpError 304) := by
  refine ⟨by decide, rfl, rfl, ?_⟩
  intro h
  have h2 : (Except.error SnippetError.notFound : Except SnippetError Snippet)
      = Except.error (SnippetError.httpError 304) := h
  exact SnippetError.noConfusion (Except.error.inj h2)

/-- C7 amended: fetch_video_snippet fails with HTTPError carrying the
status exactly when the status is in the 400 to 599 range; for every
other status, including every 2xx and regardless of the credential,
zero matching items fail with NotFound and otherwise the snippet of
the first item is returned; every 2xx status is outside the raising
range. -/
theorem c7_snippet_errors (http : VideoRequest → HttpResponse)
    (api_key video_id : List Char) :
    (raisesForStatus (http ⟨("snippet").data, video_id, api_key⟩).status = true →
      fetch_video_snippet http api_key video_id
        = Except.error (SnippetError.httpError
            (http ⟨("snippet").data, video_id, api_key⟩).status))
    ∧ (raisesForStatus (http ⟨("snippet").data, video_id, api_key⟩).status = false →
        (http ⟨("snippet").data, video_id, api_key⟩).items = [] →
        fetch_video_snippet http api_key video_id = Except.error SnippetError.notFound)
    ∧ (raisesForStatus (http ⟨("snippet").data, video_id, api_key⟩).status = false →
        ∀ item rest, (http ⟨("snippet").data, video_id, api_key⟩).items = item :: rest →
        fetch_video_snippet http api_key video_id = Except.ok item.snippet)
    ∧ (∀ status : Nat, 200 ≤ status → status < 300 → raisesForStatus status = false) := by
  refine ⟨?_, ?_, ?_, ?_⟩
  · intro h1
    unfold fetch_video_snippet
    rw [if_pos h1]
  · intro h1 h2
    unfold fetch_video_snippet
    rw [if_neg (by simp [h1]), h2]
  · intro h1 item rest h2
    unfold fetch_video_snippet
    rw [if_neg (by simp [h1]), h2]
  · intro status hlo hhi
    unfold raisesForStatus
    simp only [Bool.and_eq_false_iff, decide_eq_false_iff_not]
    left
    omega

/-- Witness for the amended C7: a 500 response yields the HTTPError
with its status, and a 200 response with one item yields its snippet. -/
theorem c7_snippet_errors_witness :
    fetch_video_snippet httpServerError (("k").data) (("v").data)
      = Except.error (SnippetError.httpError 500)
    ∧ fetch_video_snippet httpOneItem (("k").data) (("v").data)
      = Except.ok sampleSnippet :=
  ⟨(c7_snippet_errors httpServerError (("k").data) (("v").data)).1 rfl,
   (c7_snippet_errors httpOneItem (("k").data) (("v").data)).2.2.1 rfl
     ⟨sampleSnippet⟩ [] rfl⟩

/-! Helper lemmas about the pattern search. -/

theorem tryAltAt_none (s : List Char) (a : List MTok)
    (h : markerAccepts a s = false) : tryAltAt s a = none := by
  simp [tryAltAt, h]

theorem tryAltAt_some (s : List Char) (a : List MTok) (g : List Char)
    (h : tryAltAt s a = some g) :
    markerAccepts a s = true ∧ g = captureOf (s.drop a.length) ∧ g ≠ [] := by
  by_cases hm : markerAccepts a s = true
  · unfold tryAltAt at h
    rw [if_pos hm] at h
    rcases hc : captureOf (s.drop a.length) with _ | ⟨c, cs⟩
    · rw [hc] at h
      have h2 : (none : Option (List Char)) = some g := h
      cases h2
    · rw [hc] at h
      have h2 : some (c :: cs) = some g := h
      cases h2
      exact ⟨hm, rfl, by simp⟩
  · rw [tryAltAt_none s a (by simpa using hm)] at h
    cases h

theorem tryAltsList_none (l : List (List MTok)) (s : List Char)
    (h : ∀ a, a ∈ l → tryAltAt s a = none) : tryAltsList l s = none := by
  induction l with
  | nil => rfl
  | cons a rest ih =>
    simp only [tryAltsList]
    rw [h a (List.mem_cons_self a rest)]
    exact ih (fun b hb => h b (List.mem_cons_of_mem a hb))

theorem tryAltsList_some_mem (l : List (List MTok)) (s : List Char) (g : List Char)
    (h : tryAltsList l s = some g) : ∃ a, a ∈ l ∧ tryAltAt s a = some g := by
  induction l with
  | nil => cases h
  | cons a rest ih =>
    simp only [tryAltsList] at h
    rcases ha : tryAltAt s a with _ | g2
    · rw [ha] at h
      obtain ⟨b, hb, hb2⟩ := ih (show tryAltsList rest s = some g from h)
      exact ⟨b, List.mem_cons_of_mem a hb, hb2⟩
    · rw [ha] at h
      have h2 : some g2 = some g := h
      cases h2
      exact ⟨a, List.mem_cons_self a rest, ha⟩

theorem tryAltsList_some_idx (s : List Char) (g : List Char) :
    ∀ l, tryAltsList l s = some g →
      ∃ (k : Nat) (a : List MTok), l[k]? = some a
        ∧ (∀ (j : Nat) (b : List MTok), j < k → l[j]? = some b → tryAltAt s b = none)
        ∧ tryAltAt s a = some g := by
  intro l
  induction l with
  | nil => intro h; cases h
  | cons a rest ih =>
    intro h
    simp only [tryAltsList] at h
    rcases ha : tryAltAt s a with _ | g2
    · rw [ha] at h
      obtain ⟨k, b, hk, hj, hb⟩ := ih (show tryAltsList rest s = some g from h)
      refine ⟨k + 1, b, by simpa using hk, ?_, hb⟩
      intro j c hj2 hc
      cases j with
      | zero =>
        have h3 : some a = some c := by simpa using hc
        cases h3
        exact ha
      | succ j2 =>
        exact hj j2 c (by omega) (by simpa using hc)
    · rw [ha] at h
      have h2 : some g2 = some g := h
      cases h2
      refine ⟨0, a, by simp, ?_, ha⟩
      intro j b hj
      exact absurd hj (Nat.not_lt_zero j)

theorem searchAux_leftmost (g : List Char) :
    ∀ s, searchAux s = some g →
      ∃ p, (∀ q, q < p → tryAltsAt (s.drop q) = none)
        ∧ tryAltsAt (s.drop p) = some g := by
  intro s
  induction s with
  | nil => intro h; cases h
  | cons c cs ih =>
    intro h
    simp only [searchAux] at h
    rcases ht : tryAltsAt (c :: cs) with _ | g2
    · rw [ht] at h
      obtain ⟨p, hq, hp⟩ := ih (show searchAux cs = some g from h)
      refine ⟨p + 1, ?_, by simpa using hp⟩
      intro q hq2
      cases q with
      | zero => simpa using ht
      | succ q2 => simpa using hq q2 (by omega)
    · rw [ht] at h
      have h2 : some g2 = some g := h
      cases h2
      refine ⟨0, ?_, by simpa using ht⟩
      intro q hq
      exact absurd hq (Nat.not_lt_zero q)

theorem searchAux_none (s : List Char) (h : hasMarker s = false) :
    searchAux s = none := by
  induction s with
  | nil => rfl
  | cons c cs ih =>
    simp only [hasMarker, Bool.or_eq_false_iff] at h
    obtain ⟨h1, h2⟩ := h
    have hall : ∀ a, a ∈ alts → markerAccepts a (c :: cs) = false := by
      intro a ha
      by_contra hcon
      have hmem : alts.any (fun a => markerAccepts a (c :: cs)) = true :=
        List.any_eq_true.mpr ⟨a, ha, by simpa using hcon⟩
      rw [hmem] at h1
      cases h1
    have ht : tryAltsAt (c :: cs) = none :=
      tryAltsList_none alts (c :: cs) (fun a ha => tryAltAt_none _ _ (hall a ha))
    simp only [searchAux]
    rw [ht]
    exact ih h2

theorem searchAux_some_ne (s g : List Char) (h : searchAux s = some g) : g ≠ [] := by
  obtain ⟨p, _, hp⟩ := searchAux_leftmost g s h
  obtain ⟨a, _, ha⟩ := tryAltsList_some_mem alts (s.drop p) g hp
  exact (tryAltAt_some _ _ _ ha).2.2

theorem extract_ok_reSearch (url g : List Char)
    (h : extract_video_id url = Except.ok g) : reSearch url = some g := by
  unfold extract_video_id at h
  rcases hs : reSearch url with _ | g2
  · rw [hs] at h
    cases h
  · rw [hs] at h
    have h2 : (Except.ok g2 : Except UrlError (List Char)) = Except.ok g := h
    cases h2
    rfl

/-! Claims about the video identifier extraction. -/

/-- Counterexample for C2: the input holds both the v= marker, the
first alternative of the pattern, and embed markers that occur earlier
in the string.  The claim predicts the capture after v=, which would
be the three v characters, but re.search returns the leftmost match,
so the code extracts the three e characters captured after the embed
marker at the start of the string. -/
theorem c2_counterexample :
    alts[0]? = some markV
    ∧ markerAccepts markV ((("youtube.com/embed/eee&v=vvv").data).drop 22) = true
    ∧ tryAltAt ((("youtube.com/embed/eee&v=vvv").data).drop 22) markV
        = some (("vvv").data)
    ∧ extract_video_id (("youtube.com/embed/eee&v=vvv").data)
        = Except.ok (("eee").data)
    ∧ (("eee").data : List Char) ≠ (("vvv").data) :=
  ⟨rfl, rfl, rfl, rfl, by decide⟩

/-- C2 amended: on every successful extraction the winning match is at
the leftmost start position at which any alternative matches; among
the alternatives that match at that position, the one earliest in the
fixed order of the pattern wins.  The order of alternatives does not
override leftmost position. -/
theorem c2_leftmost_precedence (url g : List Char)
    (h : extract_video_id url = Except.ok g) :
    ∃ p, (∀ q, q < p → tryAltsAt (url.drop q) = none)
      ∧ ∃ (k : Nat) (a : List MTok), alts[k]? = some a
          ∧ (∀ (j : Nat) (b : List MTok), j < k → alts[j]? = some b →
              tryAltAt (url.drop p) b = none)
          ∧ tryAltAt (url.drop p) a = some g := by
  obtain ⟨p, hq, hp⟩ := searchAux_leftmost g url (extract_ok_reSearch url g h)
  obtain ⟨k, a, hk, hj, ha⟩ := tryAltsList_some_idx (url.drop p) g alts hp
  exact ⟨p, hq, k, a, hk, hj, ha⟩

/-- Witness for the amended C2 at a short URL. -/
theorem c2_leftmost_precedence_witness :
    ∃ p, (∀ q, q < p → tryAltsAt ((("https://youtu.be/xyz").data).drop q) = none)
      ∧ ∃ (k : Nat) (a : List MTok), alts[k]? = some a
          ∧ (∀ (j : Nat) (b : List MTok), j < k → alts[j]? = some b →
              tryAltAt ((("https://youtu.be/xyz").data).drop p) b = none)
          ∧ tryAltAt ((("https://youtu.be/xyz").data).drop p) a
              = some (("xyz").data) :=
  c2_leftmost_precedence (("https://youtu.be/xyz").data) (("xyz").data) rfl

/-- C6: an input in which no marker alternative matches anywhere fails
with InvalidURL, and every successfully returned identifier has at
least one character. -/
theorem c6_invalid_url :
    (∀ url, hasMarker url = false →
      extract_video_id url = Except.error UrlError.invalidURL)
    ∧ (∀ url g, extract_video_id url = Except.ok g → g ≠ []) := by
  constructor
  · intro url h
    unfold extract_video_id reSearch
    rw [searchAux_none url h]
  · intro url g h
    exact searchAux_some_ne url g (extract_ok_reSearch url g h)

/-- Witness for C6: a marker-free string is rejected, and a returned
identifier is non-empty. -/
theorem c6_invalid_url_witness :
    extract_video_id (("hello world").data) = Except.error UrlError.invalidURL
    ∧ (("x").data : List Char) ≠ [] :=
  ⟨c6_invalid_url.1 (("hello world").data) (by decide),
   c6_invalid_url.2 (("a?v=x").data) (("x").data) rfl⟩

/-- C8: the two supported URL shapes of the design document yield the
literal identifier, and every successful extraction returns exactly
the maximal run of non-delimiter characters after a matched marker. -/
theorem c8_extract_shapes :
    extract_video_id (("https://www.youtube.com/watch?v=abc123&t=5s").data)
      = Except.ok (("abc123").data)
    ∧ extract_video_id (("https://youtu.be/abc123").data)
      = Except.ok (("abc123").data)
    ∧ (∀ url g, extract_video_id url = Except.ok g →
        ∃ p a, a ∈ alts ∧ markerAccepts a (url.drop p) = true
          ∧ g = captureOf ((url.drop p).drop a.length)) := by
  refine ⟨rfl, rfl, ?_⟩
  intro url g h
  obtain ⟨p, _, hp⟩ := searchAux_leftmost g url (extract_ok_reSearch url g h)
  obtain ⟨a, ha, hsome⟩ := tryAltsList_some_mem alts (url.drop p) g hp
  obtain ⟨hacc, hcapt, _⟩ := tryAltAt_some _ _ _ hsome
  exact ⟨p, a, ha, hacc, hcapt⟩

/-- Witness for C8 at the short URL shape. -/
theorem c8_extract_shapes_witness :
    ∃ p a, a ∈ alts
      ∧ markerAccepts a ((("https://youtu.be/abc123").data).drop p) = true
      ∧ (("abc123").data : List Char)
          = captureOf (((("https://youtu.be/abc123").data).drop p).drop a.length) :=
  c8_extract_shapes.2.2 (("https://youtu.be/abc123").data) (("abc123").data) rfl

end Sumtube
